import Mathlib

/-!
Verification of the altcoin-screener core against its specification.

The Python source is shallowly embedded: money and quantities are exact
rationals (`ℚ`), candles and positions are Lean structures, and the
stateful service methods become pure state-passing functions.  Each
definition mirrors one function of the source tree
(`backend/services/sim_trading_service.py`,
`backend/services/indicator_service.py`,
`backend/services/monitor_service.py`,
`backend/database/timescale_db.py`).
-/

namespace AltScreener

/-! ## Paper-trading engine (`sim_trading_service.py`) -/

/-- The mutable per-account state touched by `open_position` / `close_position`
(`SimAccount` in `backend/database/models.py`). -/
structure Account where
  current_balance : ℚ
  total_equity : ℚ
  max_positions : Nat
  position_size_pct : ℚ
  entry_score_min : ℚ
  entry_technical_min : ℚ
  stop_loss_pct : ℚ
  take_profit_levels : List ℚ
  total_trades : Nat
  winning_trades : Nat
  losing_trades : Nat
  total_pnl : ℚ
  total_commission : ℚ
  deriving DecidableEq, Repr

/-- One entry of a position's `partial_exits` log. -/
structure PartialExit where
  price : ℚ
  quantity : ℚ
  pnl : ℚ
  deriving DecidableEq, Repr

/-- `SimPosition` fields used by the engine. -/
structure Position where
  symbol : String
  entry_price : ℚ
  quantity : ℚ
  entry_value : ℚ
  stop_loss_price : ℚ
  take_profit_prices : List ℚ
  remaining_quantity : ℚ
  partial_exits : List PartialExit
  is_closed : Bool
  close_reason : Option String
  deriving DecidableEq, Repr

/-- `self.commission_rate = 0.001`. -/
def commission_rate : ℚ := 1 / 1000

/-- `SimTradingService.open_position`.  `open_count` is the number of open
positions of the account and `has_existing` whether an open position for the
same symbol already exists (both are database queries in the source).
Returns `none` exactly on the three rejection branches of the source. -/
def open_position (acct : Account) (open_count : Nat) (has_existing : Bool)
    (symbol : String) (entry_price : ℚ) : Option (Account × Position) :=
  if has_existing then none
  else if acct.max_positions ≤ open_count then none
  else
    let position_value := acct.total_equity * (acct.position_size_pct / 100)
    if acct.current_balance < position_value then none
    else
      let quantity := position_value / entry_price
      let commission := position_value * commission_rate
      let stop_loss_price := entry_price * (1 - acct.stop_loss_pct / 100)
      let take_profit_prices :=
        acct.take_profit_levels.map (fun tp => entry_price * (1 + tp / 100))
      some
        ({ acct with
            current_balance := acct.current_balance - (position_value + commission)
            total_trades := acct.total_trades + 1
            total_commission := acct.total_commission + commission },
         { symbol := symbol
           entry_price := entry_price
           quantity := quantity
           entry_value := position_value
           stop_loss_price := stop_loss_price
           take_profit_prices := take_profit_prices
           remaining_quantity := quantity
           partial_exits := []
           is_closed := false
           close_reason := none })

/-- `SimTradingService.close_position` with an explicit `close_price`
(the `close_price is None` market lookup is outside the embedded state).
A position that is already closed is returned unchanged, mirroring the
source's early `return False` on `position.is_closed`. -/
def close_position (acct : Account) (pos : Position) (close_price : ℚ)
    (close_reason : String) (partial_pct : ℚ) : Account × Position :=
  if pos.is_closed then (acct, pos)
  else
    let close_quantity := pos.remaining_quantity * (partial_pct / 100)
    let close_value := close_quantity * close_price
    let entry_value := close_quantity * pos.entry_price
    let pnl := close_value - entry_value
    let commission := close_value * commission_rate
    let remaining := pos.remaining_quantity - close_quantity
    let closed_now : Bool := decide (remaining < 1 / 10000)
    let pos' :=
      { pos with
          remaining_quantity := remaining
          partial_exits := pos.partial_exits ++
            [{ price := close_price, quantity := close_quantity, pnl := pnl }]
          is_closed := closed_now
          close_reason := if closed_now then some close_reason else pos.close_reason }
    let acct' :=
      { acct with
          current_balance := acct.current_balance + (close_value - commission)
          total_pnl := acct.total_pnl + pnl
          total_commission := acct.total_commission + commission
          winning_trades := if 0 < pnl then acct.winning_trades + 1 else acct.winning_trades
          losing_trades := if 0 < pnl then acct.losing_trades else acct.losing_trades + 1 }
    (acct', pos')

/-- Index of the first take-profit level reached by `price` — the loop
`for i, tp_price in enumerate(tp_prices): if current_price >= tp_price`
of `check_and_execute_exits`. -/
def find_tp_level (price : ℚ) : List ℚ → Option Nat
  | [] => none
  | tp :: rest => if tp ≤ price then some 0 else (find_tp_level price rest).map (· + 1)

/-- The body of `SimTradingService.check_and_execute_exits` for one open
position at the freshly fetched `current_price`: stop-loss first, otherwise
the take-profit walk with `partial_pct = 100.0 / len(tp_prices)`, removal of
the triggered level, and `break` after the first trigger. -/
def check_exits_one (acct : Account) (pos : Position) (current_price : ℚ) :
    Account × Position :=
  if current_price ≤ pos.stop_loss_price then
    close_position acct pos current_price "STOP_LOSS" 100
  else
    match find_tp_level current_price pos.take_profit_prices with
    | none => (acct, pos)
    | some i =>
        let partial_pct : ℚ := 100 / (pos.take_profit_prices.length : ℚ)
        let r := close_position acct pos current_price
          ("TAKE_PROFIT_" ++ toString (i + 1)) partial_pct
        (r.1, { r.2 with take_profit_prices := pos.take_profit_prices.eraseIdx i })

/-- The screening-row fields read by the auto-entry evaluator. -/
structure ScreeningRow where
  total_score : ℚ
  technical_score : ℚ
  macd_golden_cross : Bool
  above_all_ema : Bool
  volume_score : ℚ
  deriving DecidableEq, Repr

/-- `SimTradingService.evaluate_screening_result`: the five checks in source
order, each with its reason string. -/
def evaluate_screening_result (acct : Account) (r : ScreeningRow) : Bool × String :=
  if r.total_score < acct.entry_score_min then
    (false, "Total score too low: " ++ toString r.total_score ++ " < " ++
      toString acct.entry_score_min)
  else if r.technical_score < acct.entry_technical_min then
    (false, "Technical score too low: " ++ toString r.technical_score ++ " < " ++
      toString acct.entry_technical_min)
  else if !r.macd_golden_cross then
    (false, "Missing MACD golden cross signal")
  else if !r.above_all_ema then
    (false, "Missing price above all EMA signal")
  else if r.volume_score < 40 then
    (false, "Volume too low: " ++ toString r.volume_score)
  else
    (true, "All entry criteria met")

/-- Positions reachable through the engine: created by a successful
`open_position` (with a positive entry price and nonnegative sizing inputs,
as produced by ticker data and account settings), then mutated by any
sequence of `close_position` calls with a fraction in `(0, 100]`
(manual closes, stop-loss closes at 100 %, and the ladder's
`100/len(tp_prices)` all fall in this range). -/
inductive ReachablePosition : Account → Position → Prop
  | opened {acct acct' : Account} {cnt : Nat} {sym : String} {price : ℚ} {p : Position} :
      0 ≤ acct.total_equity → 0 ≤ acct.position_size_pct → 0 < price →
      open_position acct cnt false sym price = some (acct', p) →
      ReachablePosition acct' p
  | closed {acct : Account} {p : Position} (price : ℚ) (reason : String) {pct : ℚ} :
      ReachablePosition acct p → 0 < pct → pct ≤ 100 →
      ReachablePosition (close_position acct p price reason pct).1
        (close_position acct p price reason pct).2

/-! ## Indicator engine (`indicator_service.py`)

A candle series is a list in ascending time order; each indicator is the
value pandas computes at the last row.  `Option ℚ` models NaN: a rolling
window shorter than its period, or a 0/0, yields `none` and every dependent
check returns `false`, as `pd.notna` guards do in the source. -/

structure Candle where
  high : ℚ
  low : ℚ
  close : ℚ
  volume : ℚ
  deriving DecidableEq, Repr

/-- Mean of the last `n` entries — `series.rolling(window=n).mean()` at the
last row, `none` (NaN) when fewer than `n` rows exist. -/
def rolling_mean_last (n : Nat) (xs : List ℚ) : Option ℚ :=
  if xs.length < n then none
  else some ((xs.drop (xs.length - n)).sum / (n : ℚ))

/-- One step of `ewm(span=n, adjust=False)`: `y = α·x + (1−α)·y_prev` with
`α = 2/(n+1)`. -/
def ema_step (n : Nat) (prev x : ℚ) : ℚ :=
  (2 / ((n : ℚ) + 1)) * x + (1 - 2 / ((n : ℚ) + 1)) * prev

/-- Tail of the exponentially weighted series after the seed. -/
def ema_from (n : Nat) (prev : ℚ) : List ℚ → List ℚ
  | [] => []
  | x :: xs => ema_step n prev x :: ema_from n (ema_step n prev x) xs

/-- `series.ewm(span=n, adjust=False).mean()`: seed is the first value. -/
def ema_list (n : Nat) : List ℚ → List ℚ
  | [] => []
  | x :: xs => x :: ema_from n x xs

/-- MACD line = `EMA_12(close) − EMA_26(close)` (`calculate_macd`). -/
def macd_line (closes : List ℚ) : List ℚ :=
  List.zipWith (· - ·) (ema_list 12 closes) (ema_list 26 closes)

/-- Signal line = `EMA_9` of the MACD line. -/
def macd_signal_line (closes : List ℚ) : List ℚ :=
  ema_list 9 (macd_line closes)

/-- Golden-cross flags: `(macd > signal) & (macd.shift(1) <= signal.shift(1))`;
the first row compares against NaN and is `false`. -/
def cross_flags_from (prev : ℚ × ℚ) : List (ℚ × ℚ) → List Bool
  | [] => []
  | q :: rest =>
      (decide (q.2 < q.1) && decide (prev.1 ≤ prev.2)) :: cross_flags_from q rest

/-- Golden-cross flag series over paired (macd, signal) values. -/
def cross_flags : List (ℚ × ℚ) → List Bool
  | [] => []
  | p :: rest => false :: cross_flags_from p rest

/-- `delta = close.diff()` (without the leading NaN). -/
def diffs : List ℚ → List ℚ
  | [] => []
  | [_] => []
  | x :: y :: rest => (y - x) :: diffs (y :: rest)

/-- The gains series: `delta.where(delta > 0, 0)` — the leading NaN of
`diff()` becomes 0 because `NaN > 0` is false. -/
def gains (closes : List ℚ) : List ℚ :=
  0 :: (diffs closes).map (fun d => max d 0)

/-- The losses series: `-delta.where(delta < 0, 0)`. -/
def losses (closes : List ℚ) : List ℚ :=
  0 :: (diffs closes).map (fun d => max (-d) 0)

/-- `calculate_rsi` at the last row: `100 − 100/(1+rs)` with
`rs = avg_gain/avg_loss`.  In floats `avg_loss = 0 < avg_gain` gives
`rs = inf`, hence RSI 100; `0/0` gives NaN. -/
def rsi_last (closes : List ℚ) : Option ℚ :=
  match rolling_mean_last 14 (gains closes), rolling_mean_last 14 (losses closes) with
  | some g, some l =>
      if l = 0 then (if g = 0 then none else some 100)
      else some (100 - 100 / (1 + g / l))
  | _, _ => none

/-- Closes of a series. -/
def closes (s : List Candle) : List ℚ := s.map Candle.close

/-- Volumes of a series. -/
def volumes (s : List Candle) : List ℚ := s.map Candle.volume

/-- `calculate_all_indicators` adds indicator columns only when the frame has
at least 200 rows; otherwise every check sees a missing column and returns
`false`.  Each check below therefore carries this gate. -/
def indicators_available (s : List Candle) : Bool := decide (200 ≤ s.length)

/-- `check_price_above_sma`: last close strictly above SMA-20. -/
def check_price_above_sma (s : List Candle) : Bool :=
  if indicators_available s then
    match (closes s).getLast?, rolling_mean_last 20 (closes s) with
    | some c, some m => decide (m < c)
    | _, _ => false
  else false

/-- `check_macd_golden_cross`: any golden cross among the trailing 3 rows
(`df['macd_golden_cross'].iloc[-3:].any()`). -/
def check_macd_golden_cross (s : List Candle) : Bool :=
  if indicators_available s then
    let flags := cross_flags ((macd_line (closes s)).zip (macd_signal_line (closes s)))
    (flags.drop (flags.length - 3)).any id
  else false

/-- `check_price_above_all_ema`: last close strictly above each of
EMA 7/14/30/52. -/
def check_price_above_all_ema (s : List Candle) : Bool :=
  if indicators_available s then
    match (closes s).getLast? with
    | none => false
    | some c =>
        [7, 14, 30, 52].all fun n =>
          match (ema_list n (closes s)).getLast? with
          | none => false
          | some e => decide (e < c)
  else false

/-- The RSI clause of `calculate_technical_score`: `40 <= rsi <= 70` when the
value exists. -/
def check_rsi_healthy (s : List Candle) : Bool :=
  if indicators_available s then
    match rsi_last (closes s) with
    | some r => decide (40 ≤ r) && decide (r ≤ 70)
    | none => false
  else false

/-- `calculate_volume_indicators`: `volume > volume_sma_20 * 1.5` at the last
row. -/
def check_volume_surge (s : List Candle) : Bool :=
  if indicators_available s then
    match (volumes s).getLast?, rolling_mean_last 20 (volumes s) with
    | some v, some m => decide (m * (3 / 2) < v)
    | _, _ => false
  else false

/-- `IndicatorService.calculate_technical_score`: 0 for an empty frame, else
+20 per satisfied sub-signal. -/
def calculate_technical_score (s : List Candle) : ℚ :=
  if s.length = 0 then 0
  else
    (if check_price_above_sma s then 20 else 0) +
    (if check_macd_golden_cross s then 20 else 0) +
    (if check_price_above_all_ema s then 20 else 0) +
    (if check_rsi_healthy s then 20 else 0) +
    (if check_volume_surge s then 20 else 0)

/-- Number of satisfied sub-signals among the five score criteria. -/
def signal_count (s : List Candle) : Nat :=
  (if check_price_above_sma s then 1 else 0) +
  (if check_macd_golden_cross s then 1 else 0) +
  (if check_price_above_all_ema s then 1 else 0) +
  (if check_rsi_healthy s then 1 else 0) +
  (if check_volume_surge s then 1 else 0)

/-! ## TSDB layer (`timescale_db.py`)

Stored 5-minute rows for one `(symbol, '5m')` stream; `time` is in minutes
since the epoch (the primary key makes times pairwise distinct). -/

structure KRow where
  time : Nat
  kopen : ℚ
  high : ℚ
  low : ℚ
  close : ℚ
  volume : ℚ
  quote_volume : ℚ
  trades : ℚ
  deriving DecidableEq, Repr

/-- One row of `get_aggregated_klines`' SELECT output. -/
structure AggRow where
  kopen : ℚ
  high : ℚ
  low : ℚ
  close : ℚ
  volume : ℚ
  quote_volume : ℚ
  trades : ℚ
  deriving DecidableEq, Repr

/-- `time_bucket('{w} minutes', time)`: the bucket boundary at or below `t`,
aligned to `w`-minute multiples of the epoch. -/
def time_bucket (w t : Nat) : Nat := w * (t / w)

/-- Ascending-time comparison used by `ORDER BY time ASC`. -/
def timeLE (a b : KRow) : Prop := a.time ≤ b.time

/-- Descending-time comparison used by `ORDER BY time DESC`. -/
def timeGE (a b : KRow) : Prop := b.time ≤ a.time

instance : DecidableRel timeLE := fun a b => Nat.decLe a.time b.time

instance : DecidableRel timeGE := fun a b => Nat.decLe b.time a.time

instance : IsTotal KRow timeLE := ⟨fun a b => Nat.le_total a.time b.time⟩

instance : IsTrans KRow timeLE := ⟨fun _ _ _ h h' => Nat.le_trans h h'⟩

instance : IsTotal KRow timeGE := ⟨fun a b => Nat.le_total b.time a.time⟩

instance : IsTrans KRow timeGE := ⟨fun _ _ _ h h' => Nat.le_trans h' h⟩

/-- The group's rows in ascending time order (`array_agg(... ORDER BY time ASC)`). -/
def sorted_asc (g : List KRow) : List KRow := g.insertionSort timeLE

/-- The group's rows in descending time order (`array_agg(... ORDER BY time DESC)`). -/
def sorted_desc (g : List KRow) : List KRow := g.insertionSort timeGE

/-- The aggregate SELECT of `get_aggregated_klines` applied to one
`GROUP BY bucket_time` group: `open` from the first row by ascending time,
`close` from the first row by descending time, `MAX(high)`, `MIN(low)` and
the three `SUM`s; an empty group yields no output row. -/
def agg_group (g : List KRow) : Option AggRow :=
  match sorted_asc g, sorted_desc g with
  | fa :: restA, fd :: _ =>
      some
        { kopen := fa.kopen
          high := restA.foldl (fun m r => max m r.high) fa.high
          low := restA.foldl (fun m r => min m r.low) fa.low
          close := fd.close
          volume := (g.map KRow.volume).sum
          quote_volume := (g.map KRow.quote_volume).sum
          trades := (g.map KRow.trades).sum }
  | _, _ => none

/-- The stored 5m rows falling into the `w`-minute bucket starting at `b` —
the `GROUP BY time_bucket(...)` grouping, restricted to one bucket key. -/
def rows_in_bucket (rows : List KRow) (w b : Nat) : List KRow :=
  rows.filter (fun r => time_bucket w r.time = b)

/-- `get_aggregated_klines` for one bucket: aggregate of that bucket's rows. -/
def get_aggregated_klines (rows : List KRow) (w b : Nat) : Option AggRow :=
  agg_group (rows_in_bucket rows w b)

/-- Primary key of the `klines` table. -/
structure KKey where
  time : Nat
  symbol : String
  timeframe : String
  deriving DecidableEq, Repr

/-- The OHLCV payload columns of one `klines` row; `quote_volume` and
`trades` are nullable in the schema. -/
structure KPayload where
  kopen : ℚ
  high : ℚ
  low : ℚ
  close : ℚ
  volume : ℚ
  quote_volume : Option ℚ
  trades : Option Int
  deriving DecidableEq, Repr

/-- The `klines` table contents (at most one row per primary key). -/
def KStore := List (KKey × KPayload)

/-- `INSERT ... ON CONFLICT (time, symbol, timeframe) DO UPDATE SET ...`:
replace the row with the conflicting key, else append a new row. -/
def upsert_kline : KStore → KKey → KPayload → KStore
  | [], k, v => [(k, v)]
  | e :: rest, k, v =>
      if e.1 = k then (k, v) :: rest else e :: upsert_kline rest k v

/-- Stored payload at a key. -/
def lookup_kline : KStore → KKey → Option KPayload
  | [], _ => none
  | e :: rest, k => if e.1 = k then some e.2 else lookup_kline rest k

/-- `save_klines(symbol, timeframe, klines)`: one upsert per input row, in
order.  An input row is `(epoch-time, payload)`. -/
def save_klines (symbol timeframe : String) (klines : List (Nat × KPayload))
    (store : KStore) : KStore :=
  klines.foldl
    (fun st k => upsert_kline st ⟨k.1, symbol, timeframe⟩ k.2) store

/-! ## Monitor loop and notification gate (`monitor_service.py`) -/

/-- The `NotificationSettings` fields read by `_can_send_notification`,
with wall-clock facts (`today` match, minutes since the last notification)
passed in explicitly. -/
structure NotifSettings where
  quiet_hours_enabled : Bool
  quiet_hours_start : Nat
  quiet_hours_end : Nat
  daily_limit : Nat
  daily_count : Nat
  reset_date_is_today : Bool
  min_interval_minutes : Nat
  minutes_since_last : Option ℚ
  deriving DecidableEq, Repr

/-- Outcome of the notification gate, one constructor per return site. -/
inductive GateDecision where
  | allow
  | quietHours
  | dailyLimit
  | minInterval
  deriving DecidableEq, Repr

/-- `MonitorService._can_send_notification` at tz-local hour `hour`:
quiet hours (with midnight wrap-around), then the daily-count reset and cap,
then the minimum interval.  Returns the decision and the daily count after
the possible calendar-day reset. -/
def can_send_notification (ns : NotifSettings) (hour : Nat) : GateDecision × Nat :=
  if ns.quiet_hours_enabled &&
      (if ns.quiet_hours_end < ns.quiet_hours_start then
        decide (ns.quiet_hours_start ≤ hour) || decide (hour < ns.quiet_hours_end)
      else
        decide (ns.quiet_hours_start ≤ hour) && decide (hour < ns.quiet_hours_end)) then
    (GateDecision.quietHours, ns.daily_count)
  else
    let cnt := if ns.reset_date_is_today then ns.daily_count else 0
    if ns.daily_limit ≤ cnt then (GateDecision.dailyLimit, cnt)
    else
      match ns.minutes_since_last with
      | some m =>
          if m < (ns.min_interval_minutes : ℚ) then (GateDecision.minInterval, cnt)
          else (GateDecision.allow, cnt)
      | none => (GateDecision.allow, cnt)

/-- `MonitorService.trading_windows`: the preferred Beijing-time windows as
`(start_hour, start_min, end_hour, end_min)`. -/
def trading_windows : List (Nat × Nat × Nat × Nat) :=
  [(7, 30, 8, 30), (11, 30, 12, 30), (15, 30, 16, 30)]

/-- `MonitorService.is_in_trading_window` at `m` minutes past tz-local
midnight: inclusive on both window ends. -/
def is_in_trading_window (m : Nat) : Bool :=
  trading_windows.any fun w =>
    decide (w.1 * 60 + w.2.1 ≤ m) && decide (m ≤ w.2.2.1 * 60 + w.2.2.2)

/-- `MonitorService.get_time_window_bonus`: `+5` inside a preferred window,
`0` outside. -/
def get_time_window_bonus (m : Nat) : ℚ :=
  if is_in_trading_window m then 5 else 0

/-! ## Concrete data for the literal scenarios -/

/-- The S1/S6 account: balance 10000, `max_positions=5`, `position_size_pct=2`,
`stop_loss_pct=3`, `take_profit_levels=[6,9,12]`, `entry_score_min=75`,
`entry_technical_min=60`. -/
def acctS1 : Account :=
  { current_balance := 10000, total_equity := 10000, max_positions := 5,
    position_size_pct := 2, entry_score_min := 75, entry_technical_min := 60,
    stop_loss_pct := 3, take_profit_levels := [6, 9, 12],
    total_trades := 0, winning_trades := 0, losing_trades := 0,
    total_pnl := 0, total_commission := 0 }

/-- The S6 candidate row. -/
def rowS6 : ScreeningRow :=
  { total_score := 80, technical_score := 65,
    macd_golden_cross := true, above_all_ema := true, volume_score := 45 }

/-- The S6 candidate with `volume_score = 35`. -/
def rowS6low : ScreeningRow := { rowS6 with volume_score := 35 }

/-- A candidate whose score qualifies only with the +5 preferred-window bonus. -/
def rowBonus : ScreeningRow := { rowS6 with total_score := 72 }

/-- Notification settings with the S5 quiet window `[22, 7)`. -/
def nsS5 : NotifSettings :=
  { quiet_hours_enabled := true, quiet_hours_start := 22, quiet_hours_end := 7,
    daily_limit := 10, daily_count := 0, reset_date_is_today := true,
    min_interval_minutes := 30, minutes_since_last := none }

/-- The account state after opening XYZ/USDT at 100 from `acctS1`. -/
def acctW : Account :=
  { acctS1 with
      current_balance := 48999 / 5
      total_trades := 1
      total_commission := 1 / 5 }

/-- The position opened on XYZ/USDT at 100 from `acctS1`. -/
def posW : Position :=
  { symbol := "XYZ", entry_price := 100, quantity := 2, entry_value := 200,
    stop_loss_price := 97, take_profit_prices := [106, 109, 112],
    remaining_quantity := 2, partial_exits := [], is_closed := false,
    close_reason := none }

/-- `acctS1` with free cash between the position value and the position value
plus its entry commission. -/
def acctC10 : Account := { acctS1 with current_balance := 200.1 }

/-- The account after the first take-profit trigger of `posW` at price 107. -/
def acctT1 : Account :=
  { acctS1 with
      current_balance := 4935531 / 500
      total_trades := 1
      winning_trades := 1
      total_pnl := 14 / 3
      total_commission := 407 / 1500 }

/-- The position after the first take-profit trigger of `posW` at price 107:
level 106 consumed, one third of the quantity closed. -/
def posT1 : Position :=
  { posW with
      take_profit_prices := [109, 112]
      remaining_quantity := 4 / 3
      partial_exits := [{ price := 107, quantity := 2 / 3, pnl := 14 / 3 }] }

/-- A stored 5m row at minute 0. -/
def krowA : KRow :=
  { time := 0, kopen := 1, high := 5, low := 1, close := 3, volume := 10,
    quote_volume := 30, trades := 2 }

/-- A stored 5m row at minute 5. -/
def krowB : KRow :=
  { time := 5, kopen := 3, high := 4, low := 2, close := 4, volume := 20,
    quote_volume := 60, trades := 3 }

/-- An OHLCV payload for the upsert witness. -/
def kpayA : KPayload :=
  { kopen := 1, high := 2, low := 1, close := 2, volume := 3,
    quote_volume := some 6, trades := some 4 }

/-- A second OHLCV payload for the upsert witness. -/
def kpayB : KPayload :=
  { kopen := 2, high := 3, low := 2, close := 3, volume := 4,
    quote_volume := none, trades := none }

/-! ## Theorems -/

/-- **C2.** The auto-entry evaluator accepts iff all five conditions hold
(`total_score ≥ entry_score_min`, `technical_score ≥ entry_technical_min`,
MACD golden cross, above all EMAs, `volume_score ≥ 40`); on the literal S6
inputs it qualifies, and with `volume_score = 35` it is rejected with a
reason beginning "Volume too low". -/
theorem auto_entry_iff_and_S6 :
    (∀ (a : Account) (r : ScreeningRow),
      (evaluate_screening_result a r).1 = true ↔
        (a.entry_score_min ≤ r.total_score ∧
         a.entry_technical_min ≤ r.technical_score ∧
         r.macd_golden_cross = true ∧
         r.above_all_ema = true ∧
         40 ≤ r.volume_score)) ∧
    (evaluate_screening_result acctS1 rowS6).1 = true ∧
    (evaluate_screening_result acctS1 rowS6low).1 = false ∧
    (evaluate_screening_result acctS1 rowS6low).2.toList.take 14 =
      "Volume too low".toList := by
  refine ⟨?_, by decide, by decide, by decide⟩
  intro a r
  unfold evaluate_screening_result
  split_ifs with h1 h2 h3 h4 h5 <;> simp_all [not_lt.1, Bool.not_eq_true]

/-- **C3.** The S1 end-to-end scenario: opening XYZ/USDT at 100 from the
10000-balance account yields position_value 200, quantity 2, commission 0.20,
stop loss 97, take-profit prices [106, 109, 112] and balance 9799.80; the
exit sweep at price 96.5 (≤ stop loss) fully closes with pnl −7, close
commission 0.193, counters (winning, losing) = (0, 1) and balance 9992.607. -/
theorem s1_open_then_stop_loss :
    (open_position acctS1 0 false "XYZ" 100).map (fun ap =>
      (ap.2.entry_value, ap.2.quantity, ap.1.total_commission,
       ap.2.stop_loss_price, ap.2.take_profit_prices, ap.1.current_balance)) =
      some (200, 2, 0.20, 97, [106, 109, 112], 9799.80) ∧
    (open_position acctS1 0 false "XYZ" 100).map (fun ap =>
      let t := check_exits_one ap.1 ap.2 96.5
      (t.2.partial_exits.map PartialExit.pnl, t.1.total_commission,
       t.1.winning_trades, t.1.losing_trades, t.2.is_closed, t.2.close_reason,
       t.1.current_balance)) =
      some ([-7], 0.393, 0, 1, true, some "STOP_LOSS", 9992.607) := by
  constructor <;>
    norm_num [open_position, check_exits_one, close_position, find_tp_level,
      acctS1, commission_rate]

/-- **C10.** `open_position`'s balance precondition ignores the entry
commission: whenever `position_value ≤ current_balance <
position_value·1.001` and the remaining caps hold, the open succeeds and
drives the account balance strictly negative. -/
theorem open_position_negative_balance (acct : Account) (cnt : Nat)
    (sym : String) (price : ℚ)
    (hcnt : cnt < acct.max_positions)
    (hlo : acct.total_equity * (acct.position_size_pct / 100) ≤ acct.current_balance)
    (hhi : acct.current_balance <
      acct.total_equity * (acct.position_size_pct / 100) * (1001 / 1000)) :
    ∃ r, open_position acct cnt false sym price = some r ∧
      r.1.current_balance < 0 := by
  unfold open_position
  rw [if_neg (by simp), if_neg (not_le.2 hcnt), if_neg (not_lt.2 hlo)]
  refine ⟨_, rfl, ?_⟩
  show acct.current_balance -
      (acct.total_equity * (acct.position_size_pct / 100) +
        acct.total_equity * (acct.position_size_pct / 100) * commission_rate) < 0
  unfold commission_rate
  nlinarith [hhi]

/-- Witness for `open_position_negative_balance`: with equity 10000, 2 %
sizing (position value 200) and free cash 200.10, the open succeeds and
leaves the balance negative. -/
theorem open_position_negative_balance_witness :
    ∃ r, open_position acctC10 0 false "CCC" 100 = some r ∧
      r.1.current_balance < 0 :=
  open_position_negative_balance acctC10 0 "CCC" 100 (by decide)
    (by norm_num [acctC10, acctS1]) (by norm_num [acctC10, acctS1])

/-- Whenever the quiet-hours test of `_can_send_notification` is not taken,
the gate's decision is never `quietHours` (it falls through to the daily cap
and interval checks). -/
theorem can_send_ne_quiet (ns : NotifSettings) (hour : Nat)
    (h : ¬ ((ns.quiet_hours_enabled &&
      (if ns.quiet_hours_end < ns.quiet_hours_start then
        decide (ns.quiet_hours_start ≤ hour) || decide (hour < ns.quiet_hours_end)
      else
        decide (ns.quiet_hours_start ≤ hour) && decide (hour < ns.quiet_hours_end))) = true)) :
    (can_send_notification ns hour).1 ≠ GateDecision.quietHours := by
  unfold can_send_notification
  rw [if_neg h]
  rcases ns.minutes_since_last with _ | m <;> split_ifs
  all_goals try simp
  all_goals split_ifs <;> simp

/-- **C7.** With quiet hours enabled, the gate returns the quiet-hours
rejection exactly on `[start, 24) ∪ [0, end)` when the window wraps past
midnight (`start > end`) and exactly on `[start, end)` otherwise, for every
daily count, cap and interval (quiet hours are decided first); with the S5
window `[22, 7)` it rejects at hour 23 and does not quiet-reject at hour 8. -/
theorem quiet_hours_gate :
    (∀ (ns : NotifSettings) (hour : Nat),
      ns.quiet_hours_enabled = true → hour < 24 →
      ((ns.quiet_hours_end < ns.quiet_hours_start →
          ((can_send_notification ns hour).1 = GateDecision.quietHours ↔
            (ns.quiet_hours_start ≤ hour ∧ hour < 24) ∨ hour < ns.quiet_hours_end)) ∧
       (ns.quiet_hours_start ≤ ns.quiet_hours_end →
          ((can_send_notification ns hour).1 = GateDecision.quietHours ↔
            ns.quiet_hours_start ≤ hour ∧ hour < ns.quiet_hours_end)))) ∧
    (can_send_notification nsS5 23).1 = GateDecision.quietHours ∧
    (can_send_notification nsS5 8).1 ≠ GateDecision.quietHours := by
  refine ⟨?_, by decide, by decide⟩
  intro ns hour hen h24
  constructor
  · intro hw
    have hiff : ((ns.quiet_hours_enabled &&
        (if ns.quiet_hours_end < ns.quiet_hours_start then
          decide (ns.quiet_hours_start ≤ hour) || decide (hour < ns.quiet_hours_end)
        else
          decide (ns.quiet_hours_start ≤ hour) && decide (hour < ns.quiet_hours_end))) = true)
        ↔ (ns.quiet_hours_start ≤ hour ∨ hour < ns.quiet_hours_end) := by
      simp [hen, if_pos hw]
    have hrw : ((ns.quiet_hours_start ≤ hour ∧ hour < 24) ∨ hour < ns.quiet_hours_end)
        ↔ (ns.quiet_hours_start ≤ hour ∨ hour < ns.quiet_hours_end) := by
      constructor
      · rintro (⟨h1, _⟩ | h2)
        exacts [Or.inl h1, Or.inr h2]
      · rintro (h1 | h2)
        exacts [Or.inl ⟨h1, h24⟩, Or.inr h2]
    rw [hrw]
    by_cases hq : ns.quiet_hours_start ≤ hour ∨ hour < ns.quiet_hours_end
    · rw [iff_true_intro hq, iff_true]
      unfold can_send_notification
      rw [if_pos (hiff.2 hq)]
    · rw [iff_false_intro hq, iff_false]
      exact can_send_ne_quiet ns hour (fun hc => hq (hiff.1 hc))
  · intro hnw
    have hiff : ((ns.quiet_hours_enabled &&
        (if ns.quiet_hours_end < ns.quiet_hours_start then
          decide (ns.quiet_hours_start ≤ hour) || decide (hour < ns.quiet_hours_end)
        else
          decide (ns.quiet_hours_start ≤ hour) && decide (hour < ns.quiet_hours_end))) = true)
        ↔ (ns.quiet_hours_start ≤ hour ∧ hour < ns.quiet_hours_end) := by
      simp [hen, if_neg (not_lt.2 hnw)]
    by_cases hq : ns.quiet_hours_start ≤ hour ∧ hour < ns.quiet_hours_end
    · rw [iff_true_intro hq, iff_true]
      unfold can_send_notification
      rw [if_pos (hiff.2 hq)]
    · rw [iff_false_intro hq, iff_false]
      exact can_send_ne_quiet ns hour (fun hc => hq (hiff.1 hc))

/-- Witness for `quiet_hours_gate`'s universal part: instantiated at the S5
settings, a wrapped window `[22, 7)` at hour 23 is inside quiet hours. -/
theorem quiet_hours_gate_witness :
    (nsS5.quiet_hours_end < nsS5.quiet_hours_start →
      ((can_send_notification nsS5 23).1 = GateDecision.quietHours ↔
        (nsS5.quiet_hours_start ≤ 23 ∧ 23 < 24) ∨ 23 < nsS5.quiet_hours_end)) ∧
    (nsS5.quiet_hours_start ≤ nsS5.quiet_hours_end →
      ((can_send_notification nsS5 23).1 = GateDecision.quietHours ↔
        nsS5.quiet_hours_start ≤ 23 ∧ 23 < nsS5.quiet_hours_end)) :=
  quiet_hours_gate.1 nsS5 23 (by decide) (by decide)

/-- **C8 (divergence evidence).** At Beijing time 07:45 — inside the first
preferred window — the monitor computes a +5 bonus, which would lift a
score-72 candidate over `entry_score_min = 75`; yet the auto-entry evaluator
that `auto_trade_monitor` actually calls compares the raw score and rejects
the candidate with "Total score too low". -/
theorem time_window_bonus_not_applied :
    get_time_window_bonus (7 * 60 + 45) = 5 ∧
    (75 : ℚ) ≤ 72 + get_time_window_bonus (7 * 60 + 45) ∧
    (evaluate_screening_result acctS1 rowBonus).1 = false ∧
    (evaluate_screening_result acctS1 rowBonus).2.toList.take 19 =
      "Total score too low".toList := by
  have hb : get_time_window_bonus (7 * 60 + 45) = 5 := by
    unfold get_time_window_bonus
    rw [if_pos (by decide)]
  refine ⟨hb, ?_, by decide, by decide⟩
  rw [hb]
  norm_num

/-- Specification of the take-profit walk: `find_tp_level` returns the first
index whose level is reached by the price. -/
theorem find_tp_level_spec (price : ℚ) (tps : List ℚ) (i : Nat)
    (h : find_tp_level price tps = some i) :
    (∃ tp, tps.get? i = some tp ∧ tp ≤ price) ∧
    ∀ tp ∈ tps.take i, price < tp := by
  induction tps generalizing i with
  | nil => simp [find_tp_level] at h
  | cons a t ih =>
    rw [find_tp_level] at h
    split_ifs at h with ha
    · obtain rfl : (0 : Nat) = i := by simpa using h
      exact ⟨⟨a, rfl, ha⟩, by simp⟩
    · rcases hmap : find_tp_level price t with _ | j
      · rw [hmap] at h
        simp at h
      · rw [hmap] at h
        simp only [Option.map_some', Option.some.injEq] at h
        subst h
        obtain ⟨⟨tp, hget, hle⟩, hlt⟩ := ih j hmap
        refine ⟨⟨tp, by simpa using hget, hle⟩, ?_⟩
        intro x hx
        rw [List.take_succ_cons] at hx
        rcases List.mem_cons.1 hx with rfl | hx'
        · exact not_le.1 ha
        · exact hlt x hx'

/-- `close_position` on a not-yet-closed position, fully reduced. -/
theorem close_position_not_closed (acct : Account) (pos : Position) (cp : ℚ)
    (reason : String) (pct : ℚ) (h : pos.is_closed = false) :
    close_position acct pos cp reason pct =
      ({ acct with
          current_balance := acct.current_balance +
            (pos.remaining_quantity * (pct / 100) * cp -
              pos.remaining_quantity * (pct / 100) * cp * commission_rate)
          total_pnl := acct.total_pnl +
            (pos.remaining_quantity * (pct / 100) * cp -
              pos.remaining_quantity * (pct / 100) * pos.entry_price)
          total_commission := acct.total_commission +
            pos.remaining_quantity * (pct / 100) * cp * commission_rate
          winning_trades :=
            if 0 < pos.remaining_quantity * (pct / 100) * cp -
                pos.remaining_quantity * (pct / 100) * pos.entry_price then
              acct.winning_trades + 1
            else acct.winning_trades
          losing_trades :=
            if 0 < pos.remaining_quantity * (pct / 100) * cp -
                pos.remaining_quantity * (pct / 100) * pos.entry_price then
              acct.losing_trades
            else acct.losing_trades + 1 },
       { pos with
          remaining_quantity :=
            pos.remaining_quantity - pos.remaining_quantity * (pct / 100)
          partial_exits := pos.partial_exits ++
            [{ price := cp
               quantity := pos.remaining_quantity * (pct / 100)
               pnl := pos.remaining_quantity * (pct / 100) * cp -
                 pos.remaining_quantity * (pct / 100) * pos.entry_price }]
          is_closed := decide (pos.remaining_quantity -
            pos.remaining_quantity * (pct / 100) < 1 / 10000)
          close_reason :=
            if decide (pos.remaining_quantity -
                pos.remaining_quantity * (pct / 100) < 1 / 10000) = true then
              some reason
            else pos.close_reason }) := by
  rw [close_position, if_neg (by simp [h])]

/-- **C1 (amended).** For an open position priced above its stop-loss, when
the price reaches the first level of the current `take_profit_prices` list,
exactly one partial exit is appended, closing the fraction
`100/N_current` % of the remaining quantity (`N_current` = the list's
current length, which equals `N_initial` only on the first trigger), the
triggered level is removed from the list, and no further level is checked
in the same tick. -/
theorem take_profit_tick (acct : Account) (pos : Position) (price : ℚ) (i : Nat)
    (hopen : pos.is_closed = false)
    (hsl : ¬ price ≤ pos.stop_loss_price)
    (hfind : find_tp_level price pos.take_profit_prices = some i) :
    (∃ e, (check_exits_one acct pos price).2.partial_exits =
        pos.partial_exits ++ [e] ∧ e.price = price ∧
        e.quantity = pos.remaining_quantity *
          ((100 / (pos.take_profit_prices.length : ℚ)) / 100)) ∧
    (check_exits_one acct pos price).2.take_profit_prices =
      pos.take_profit_prices.eraseIdx i ∧
    (check_exits_one acct pos price).2.take_profit_prices.length + 1 =
      pos.take_profit_prices.length ∧
    (∃ tp, pos.take_profit_prices.get? i = some tp ∧ tp ≤ price) ∧
    (∀ tp ∈ pos.take_profit_prices.take i, price < tp) := by
  have hspec := find_tp_level_spec price pos.take_profit_prices i hfind
  have hilt : i < pos.take_profit_prices.length := by
    by_contra h'
    obtain ⟨⟨tp, hget, _⟩, _⟩ := hspec
    rw [List.get?_eq_none.2 (not_lt.1 h')] at hget
    cases hget
  have hred : check_exits_one acct pos price =
      ((close_position acct pos price ("TAKE_PROFIT_" ++ toString (i + 1))
          (100 / (pos.take_profit_prices.length : ℚ))).1,
       { (close_position acct pos price ("TAKE_PROFIT_" ++ toString (i + 1))
            (100 / (pos.take_profit_prices.length : ℚ))).2 with
          take_profit_prices := pos.take_profit_prices.eraseIdx i }) := by
    rw [check_exits_one, if_neg hsl, hfind]
  rw [hred, close_position_not_closed acct pos price _ _ hopen]
  dsimp only
  exact ⟨⟨_, rfl, rfl, rfl⟩, rfl, List.length_eraseIdx_add_one hilt,
    hspec.1, hspec.2⟩

/-- Witness for `take_profit_tick`: the freshly opened S1 position at price
107 triggers its first level 106. -/
theorem take_profit_tick_witness :
    (∃ e, (check_exits_one acctW posW 107).2.partial_exits =
        posW.partial_exits ++ [e] ∧ e.price = 107 ∧
        e.quantity = posW.remaining_quantity *
          ((100 / (posW.take_profit_prices.length : ℚ)) / 100)) ∧
    (check_exits_one acctW posW 107).2.take_profit_prices =
      posW.take_profit_prices.eraseIdx 0 ∧
    (check_exits_one acctW posW 107).2.take_profit_prices.length + 1 =
      posW.take_profit_prices.length ∧
    (∃ tp, posW.take_profit_prices.get? 0 = some tp ∧ tp ≤ 107) ∧
    (∀ tp ∈ posW.take_profit_prices.take 0, (107 : ℚ) < tp) :=
  take_profit_tick acctW posW 107 0 (by decide) (by decide) (by decide)

/-- **C1 (counterexample).** After the S1-style open (quantity 2, levels
[106, 109, 112], so `N_initial = 3`) and a first trigger at 107, the second
trigger at 110 closes `100/2` % of the remaining 4/3 — quantity 2/3 — while
the claimed `100/N_initial` % fraction would close `(4/3)·(1/3) ≠ 2/3`. -/
theorem tp_fraction_counterexample :
    open_position acctS1 0 false "XYZ" 100 = some (acctW, posW) ∧
    check_exits_one acctW posW 107 = (acctT1, posT1) ∧
    (check_exits_one acctT1 posT1 110).2.remaining_quantity = 2 / 3 ∧
    (check_exits_one acctT1 posT1 110).2.partial_exits.map PartialExit.quantity =
      [2 / 3, 2 / 3] ∧
    ¬ ((2 : ℚ) / 3 = (4 / 3) * ((100 / (3 : ℚ)) / 100)) := by
  refine ⟨?_, ?_, ?_, ?_, by norm_num⟩ <;>
    norm_num [open_position, check_exits_one, close_position, find_tp_level,
      List.eraseIdx, acctS1, acctW, posW, acctT1, posT1, commission_rate]

/-- **C4 (amended).** Every position reachable through `open_position` and
`close_position` (full or partial, fraction in `(0, 100]`) satisfies
`quantity = remaining_quantity + Σ partial_exits.quantity` and
`0 ≤ remaining_quantity ≤ quantity`; `is_closed` implies
`remaining_quantity < 10⁻⁴`, and for positions whose initial quantity is at
least `10⁻⁴` the implication is an equivalence. -/
theorem position_conservation (acct : Account) (pos : Position)
    (h : ReachablePosition acct pos) :
    pos.quantity = pos.remaining_quantity +
      (pos.partial_exits.map PartialExit.quantity).sum ∧
    0 ≤ pos.remaining_quantity ∧
    pos.remaining_quantity ≤ pos.quantity ∧
    (pos.is_closed = true → pos.remaining_quantity < 1 / 10000) ∧
    (1 / 10000 ≤ pos.quantity →
      (pos.is_closed = true ↔ pos.remaining_quantity < 1 / 10000)) := by
  induction h with
  | @opened acct0 acct1 cnt sym price p hte hpc hpr hopen =>
    rw [open_position] at hopen
    simp only [Bool.false_eq_true, if_false] at hopen
    split_ifs at hopen with h2 h3
    simp only [Option.some.injEq, Prod.mk.injEq] at hopen
    obtain ⟨-, rfl⟩ := hopen
    refine ⟨by simp, ?_, le_refl _, by simp, ?_⟩
    · exact div_nonneg (mul_nonneg hte (div_nonneg hpc (by norm_num)))
        (le_of_lt hpr)
    · intro hq
      constructor
      · intro hfalse
        simp at hfalse
      · intro hlt
        exact absurd (lt_of_le_of_lt hq hlt) (lt_irrefl _)
  | @closed acct1 p price reason pct hre hpos hle ih =>
    obtain ⟨ihc, ih0, ihq, ihcl, ihiff⟩ := ih
    by_cases hc : p.is_closed = true
    · unfold close_position
      rw [if_pos hc]
      exact ⟨ihc, ih0, ihq, ihcl, ihiff⟩
    · have hc' : p.is_closed = false := by
        cases hb : p.is_closed
        · rfl
        · exact absurd hb hc
      rw [close_position_not_closed _ _ _ _ _ hc']
      dsimp only
      have hfrac0 : (0 : ℚ) ≤ pct / 100 :=
        div_nonneg (le_of_lt hpos) (by norm_num)
      have hfrac1 : pct / 100 ≤ 1 := (div_le_one (by norm_num)).2 hle
      have hcq0 : 0 ≤ p.remaining_quantity * (pct / 100) :=
        mul_nonneg ih0 hfrac0
      have hcqr : p.remaining_quantity * (pct / 100) ≤ p.remaining_quantity := by
        nlinarith
      refine ⟨?_, by linarith, by linarith, ?_, ?_⟩
      · rw [List.map_append, List.sum_append]
        simp only [List.map_cons, List.map_nil, List.sum_cons, List.sum_nil]
        rw [ihc]
        ring
      · intro hcl
        exact of_decide_eq_true hcl
      · intro _
        constructor
        · intro hcl
          exact of_decide_eq_true hcl
        · intro hlt
          exact decide_eq_true hlt

/-- Witness for `position_conservation`: the S1 position freshly opened at
price 100 is reachable and satisfies the invariant. -/
theorem position_conservation_witness :
    posW.quantity = posW.remaining_quantity +
      (posW.partial_exits.map PartialExit.quantity).sum ∧
    0 ≤ posW.remaining_quantity ∧
    posW.remaining_quantity ≤ posW.quantity ∧
    (posW.is_closed = true → posW.remaining_quantity < 1 / 10000) ∧
    (1 / 10000 ≤ posW.quantity →
      (posW.is_closed = true ↔ posW.remaining_quantity < 1 / 10000)) := by
  have hopen : open_position acctS1 0 false "XYZ" 100 = some (acctW, posW) := by
    norm_num [open_position, acctS1, acctW, posW, commission_rate]
  exact position_conservation acctW posW
    (ReachablePosition.opened (by norm_num [acctS1]) (by norm_num [acctS1])
      (by norm_num) hopen)

/-- **C4 (counterexample).** Opening from the S1 account at entry price
10 000 000 creates a reachable position with quantity 1/50000 < 10⁻⁴ that is
not marked closed, refuting `is_closed ⟺ remaining_quantity < 10⁻⁴` as
stated. -/
theorem epsilon_closed_counterexample :
    (open_position acctS1 0 false "BBB" 10000000).map
        (fun ap => ap.2.is_closed) = some false ∧
    (open_position acctS1 0 false "BBB" 10000000).map
        (fun ap => ap.2.remaining_quantity) = some (1 / 50000) ∧
    (1 : ℚ) / 50000 < 1 / 10000 := by
  refine ⟨?_, ?_, by norm_num⟩ <;>
    norm_num [open_position, acctS1, commission_rate]

/-- **C5.** For every candle series the composite technical score is exactly
20 times the number of satisfied sub-signals (close > SMA20, recent MACD
golden cross, close above all EMAs, 40 ≤ RSI ≤ 70, volume surge), and hence
lies in {0, 20, 40, 60, 80, 100}. -/
theorem technical_score_decomposition (s : List Candle) :
    calculate_technical_score s = 20 * (signal_count s : ℚ) ∧
    calculate_technical_score s ∈ ({0, 20, 40, 60, 80, 100} : Set ℚ) := by
  have hmain : calculate_technical_score s = 20 * (signal_count s : ℚ) := by
    by_cases h : s.length = 0
    · have h1 : check_price_above_sma s = false := by
        simp [check_price_above_sma, indicators_available, h]
      have h2 : check_macd_golden_cross s = false := by
        simp [check_macd_golden_cross, indicators_available, h]
      have h3 : check_price_above_all_ema s = false := by
        simp [check_price_above_all_ema, indicators_available, h]
      have h4 : check_rsi_healthy s = false := by
        simp [check_rsi_healthy, indicators_available, h]
      have h5 : check_volume_surge s = false := by
        simp [check_volume_surge, indicators_available, h]
      simp [calculate_technical_score, signal_count, h, h1, h2, h3, h4, h5]
    · rw [calculate_technical_score, if_neg h]
      unfold signal_count
      cases hb1 : check_price_above_sma s <;>
      cases hb2 : check_macd_golden_cross s <;>
      cases hb3 : check_price_above_all_ema s <;>
      cases hb4 : check_rsi_healthy s <;>
      cases hb5 : check_volume_surge s <;>
        simp [hb1, hb2, hb3, hb4, hb5] <;> norm_num
  refine ⟨hmain, ?_⟩
  rw [hmain]
  set k := signal_count s with hk
  have hle : k ≤ 5 := by
    rw [hk]
    unfold signal_count
    split_ifs <;> norm_num
  interval_cases k <;>
    norm_num [Set.mem_insert_iff, Set.mem_singleton_iff]

/-- Fold with `max`: the result is the initial value or an element,
dominates the initial value, and bounds every element. -/
theorem foldl_max_spec (l : List ℚ) (init : ℚ) :
    (l.foldl max init = init ∨ l.foldl max init ∈ l) ∧
    init ≤ l.foldl max init ∧ ∀ x ∈ l, x ≤ l.foldl max init := by
  induction l generalizing init with
  | nil => simp
  | cons a t ih =>
    rw [List.foldl_cons]
    obtain ⟨hmem, hini, hub⟩ := ih (max init a)
    refine ⟨?_, le_trans (le_max_left _ _) hini, ?_⟩
    · rcases hmem with hm | hm
      · rcases max_choice init a with hc | hc
        · rw [hm, hc]
          exact Or.inl rfl
        · rw [hm, hc]
          exact Or.inr (List.mem_cons_self a t)
      · exact Or.inr (List.mem_cons_of_mem a hm)
    · intro x hx
      rcases List.mem_cons.1 hx with rfl | hx'
      · exact le_trans (le_max_right init x) hini
      · exact hub x hx'

/-- Fold with `min`: dual of `foldl_max_spec`. -/
theorem foldl_min_spec (l : List ℚ) (init : ℚ) :
    (l.foldl min init = init ∨ l.foldl min init ∈ l) ∧
    l.foldl min init ≤ init ∧ ∀ x ∈ l, l.foldl min init ≤ x := by
  induction l generalizing init with
  | nil => simp
  | cons a t ih =>
    rw [List.foldl_cons]
    obtain ⟨hmem, hini, hlb⟩ := ih (min init a)
    refine ⟨?_, le_trans hini (min_le_left _ _), ?_⟩
    · rcases hmem with hm | hm
      · rcases min_choice init a with hc | hc
        · rw [hm, hc]
          exact Or.inl rfl
        · rw [hm, hc]
          exact Or.inr (List.mem_cons_self a t)
      · exact Or.inr (List.mem_cons_of_mem a hm)
    · intro x hx
      rcases List.mem_cons.1 hx with rfl | hx'
      · exact le_trans hini (min_le_right init x)
      · exact hlb x hx'

/-- The head of the ascending sort is a time-minimal member of the group. -/
theorem sorted_asc_head_min (g : List KRow) (f : KRow) (rest : List KRow)
    (h : sorted_asc g = f :: rest) :
    f ∈ g ∧ ∀ r ∈ g, f.time ≤ r.time := by
  have hperm : List.Perm (sorted_asc g) g := List.perm_insertionSort timeLE g
  have hsorted : List.Sorted timeLE (sorted_asc g) :=
    List.sorted_insertionSort timeLE g
  rw [h] at hperm hsorted
  constructor
  · exact hperm.mem_iff.1 (List.mem_cons_self f rest)
  · intro r hr
    rcases List.mem_cons.1 (hperm.mem_iff.2 hr) with rfl | hr'
    · exact le_refl _
    · exact (List.pairwise_cons.1 hsorted).1 r hr'

/-- The head of the descending sort is a time-maximal member of the group. -/
theorem sorted_desc_head_max (g : List KRow) (f : KRow) (rest : List KRow)
    (h : sorted_desc g = f :: rest) :
    f ∈ g ∧ ∀ r ∈ g, r.time ≤ f.time := by
  have hperm : List.Perm (sorted_desc g) g := List.perm_insertionSort timeGE g
  have hsorted : List.Sorted timeGE (sorted_desc g) :=
    List.sorted_insertionSort timeGE g
  rw [h] at hperm hsorted
  constructor
  · exact hperm.mem_iff.1 (List.mem_cons_self f rest)
  · intro r hr
    rcases List.mem_cons.1 (hperm.mem_iff.2 hr) with rfl | hr'
    · exact le_refl _
    · exact (List.pairwise_cons.1 hsorted).1 r hr'

/-- **C6.** Aggregating the stored 5-minute candles to a timeframe
T ∈ {15m, 1h, 4h, 1d} yields, for every T-aligned bucket holding at least
one row, `open` from the unique earliest row, `close` from the unique latest
row, `high` the maximum of highs, `low` the minimum of lows, and `volume`,
`quote_volume` and `trades` summed over the bucket's rows. -/
theorem rollup_correct (rows : List KRow) (w b : Nat)
    (hw : w = 15 ∨ w = 60 ∨ w = 240 ∨ w = 1440)
    (hdist : (rows_in_bucket rows w b).Pairwise (fun r r' => r.time ≠ r'.time))
    (hne : rows_in_bucket rows w b ≠ []) :
    ∃ a, get_aggregated_klines rows w b = some a ∧
      (∃ rf ∈ rows_in_bucket rows w b, a.kopen = rf.kopen ∧
        ∀ r ∈ rows_in_bucket rows w b, r ≠ rf → rf.time < r.time) ∧
      (∃ rl ∈ rows_in_bucket rows w b, a.close = rl.close ∧
        ∀ r ∈ rows_in_bucket rows w b, r ≠ rl → r.time < rl.time) ∧
      (∃ rh ∈ rows_in_bucket rows w b, a.high = rh.high) ∧
      (∀ r ∈ rows_in_bucket rows w b, r.high ≤ a.high) ∧
      (∃ rlo ∈ rows_in_bucket rows w b, a.low = rlo.low) ∧
      (∀ r ∈ rows_in_bucket rows w b, a.low ≤ r.low) ∧
      a.volume = ((rows_in_bucket rows w b).map KRow.volume).sum ∧
      a.quote_volume = ((rows_in_bucket rows w b).map KRow.quote_volume).sum ∧
      a.trades = ((rows_in_bucket rows w b).map KRow.trades).sum := by
  have hsymm : Symmetric (fun r r' : KRow => r.time ≠ r'.time) :=
    fun _ _ h => h.symm
  have hdist' : ∀ x ∈ rows_in_bucket rows w b, ∀ y ∈ rows_in_bucket rows w b,
      x ≠ y → x.time ≠ y.time :=
    fun x hx y hy hxy => List.Pairwise.forall hsymm hdist hx hy hxy
  rcases hA : sorted_asc (rows_in_bucket rows w b) with _ | ⟨fa, restA⟩
  · exfalso
    apply hne
    have hlen : (sorted_asc (rows_in_bucket rows w b)).length =
        (rows_in_bucket rows w b).length :=
      (List.perm_insertionSort timeLE _).length_eq
    rw [hA] at hlen
    exact List.length_eq_zero.1 hlen.symm
  · rcases hD : sorted_desc (rows_in_bucket rows w b) with _ | ⟨fd, restD⟩
    · exfalso
      apply hne
      have hlen : (sorted_desc (rows_in_bucket rows w b)).length =
          (rows_in_bucket rows w b).length :=
        (List.perm_insertionSort timeGE _).length_eq
      rw [hD] at hlen
      exact List.length_eq_zero.1 hlen.symm
    · obtain ⟨hfaMem, hfaMin⟩ := sorted_asc_head_min _ fa restA hA
      obtain ⟨hfdMem, hfdMax⟩ := sorted_desc_head_max _ fd restD hD
      have hpermA : List.Perm (fa :: restA) (rows_in_bucket rows w b) := by
        have hperm : List.Perm (sorted_asc (rows_in_bucket rows w b))
            (rows_in_bucket rows w b) := List.perm_insertionSort timeLE _
        rwa [hA] at hperm
      have hval : get_aggregated_klines rows w b = some
          { kopen := fa.kopen
            high := restA.foldl (fun m r => max m r.high) fa.high
            low := restA.foldl (fun m r => min m r.low) fa.low
            close := fd.close
            volume := ((rows_in_bucket rows w b).map KRow.volume).sum
            quote_volume :=
              ((rows_in_bucket rows w b).map KRow.quote_volume).sum
            trades := ((rows_in_bucket rows w b).map KRow.trades).sum } := by
        unfold get_aggregated_klines agg_group
        rw [hA, hD]
      refine ⟨_, hval, ?_, ?_, ?_, ?_, ?_, ?_, rfl, rfl, rfl⟩
      · exact ⟨fa, hfaMem, rfl, fun r hr hne' =>
          lt_of_le_of_ne (hfaMin r hr) (hdist' fa hfaMem r hr hne'.symm)⟩
      · exact ⟨fd, hfdMem, rfl, fun r hr hne' =>
          lt_of_le_of_ne (hfdMax r hr) (hdist' r hr fd hfdMem hne')⟩
      · show ∃ rh ∈ rows_in_bucket rows w b,
          restA.foldl (fun m r => max m r.high) fa.high = rh.high
        rw [← List.foldl_map KRow.high max restA fa.high]
        obtain ⟨hmem, -, -⟩ := foldl_max_spec (restA.map KRow.high) fa.high
        rcases hmem with hm | hm
        · exact ⟨fa, hfaMem, hm⟩
        · obtain ⟨r, hr, hr'⟩ := List.mem_map.1 hm
          exact ⟨r, hpermA.mem_iff.1 (List.mem_cons_of_mem fa hr), hr'.symm⟩
      · show ∀ r ∈ rows_in_bucket rows w b,
          r.high ≤ restA.foldl (fun m r => max m r.high) fa.high
        rw [← List.foldl_map KRow.high max restA fa.high]
        obtain ⟨-, hini, hub⟩ := foldl_max_spec (restA.map KRow.high) fa.high
        intro r hr
        rcases List.mem_cons.1 (hpermA.mem_iff.2 hr) with rfl | hr'
        · exact hini
        · exact hub r.high (List.mem_map_of_mem KRow.high hr')
      · show ∃ rlo ∈ rows_in_bucket rows w b,
          restA.foldl (fun m r => min m r.low) fa.low = rlo.low
        rw [← List.foldl_map KRow.low min restA fa.low]
        obtain ⟨hmem, -, -⟩ := foldl_min_spec (restA.map KRow.low) fa.low
        rcases hmem with hm | hm
        · exact ⟨fa, hfaMem, hm⟩
        · obtain ⟨r, hr, hr'⟩ := List.mem_map.1 hm
          exact ⟨r, hpermA.mem_iff.1 (List.mem_cons_of_mem fa hr), hr'.symm⟩
      · show ∀ r ∈ rows_in_bucket rows w b,
          restA.foldl (fun m r => min m r.low) fa.low ≤ r.low
        rw [← List.foldl_map KRow.low min restA fa.low]
        obtain ⟨-, hini, hlb⟩ := foldl_min_spec (restA.map KRow.low) fa.low
        intro r hr
        rcases List.mem_cons.1 (hpermA.mem_iff.2 hr) with rfl | hr'
        · exact hini
        · exact hlb r.low (List.mem_map_of_mem KRow.low hr')

/-- Witness for `rollup_correct`: two 5m rows at minutes 0 and 5 aggregate
into the 15-minute bucket starting at 0. -/
theorem rollup_correct_witness :
    ∃ a, get_aggregated_klines [krowA, krowB] 15 0 = some a ∧
      (∃ rf ∈ rows_in_bucket [krowA, krowB] 15 0, a.kopen = rf.kopen ∧
        ∀ r ∈ rows_in_bucket [krowA, krowB] 15 0, r ≠ rf → rf.time < r.time) ∧
      (∃ rl ∈ rows_in_bucket [krowA, krowB] 15 0, a.close = rl.close ∧
        ∀ r ∈ rows_in_bucket [krowA, krowB] 15 0, r ≠ rl → r.time < rl.time) ∧
      (∃ rh ∈ rows_in_bucket [krowA, krowB] 15 0, a.high = rh.high) ∧
      (∀ r ∈ rows_in_bucket [krowA, krowB] 15 0, r.high ≤ a.high) ∧
      (∃ rlo ∈ rows_in_bucket [krowA, krowB] 15 0, a.low = rlo.low) ∧
      (∀ r ∈ rows_in_bucket [krowA, krowB] 15 0, a.low ≤ r.low) ∧
      a.volume = ((rows_in_bucket [krowA, krowB] 15 0).map KRow.volume).sum ∧
      a.quote_volume =
        ((rows_in_bucket [krowA, krowB] 15 0).map KRow.quote_volume).sum ∧
      a.trades = ((rows_in_bucket [krowA, krowB] 15 0).map KRow.trades).sum :=
  rollup_correct [krowA, krowB] 15 0 (Or.inl rfl) (by decide) (by decide)

/-- Unfolding of `save_klines` on a cons. -/
theorem save_klines_cons (sym tf : String) (a : Nat × KPayload)
    (t : List (Nat × KPayload)) (st : KStore) :
    save_klines sym tf (a :: t) st =
      save_klines sym tf t (upsert_kline st ⟨a.1, sym, tf⟩ a.2) := rfl

/-- After an upsert the key's stored payload is the upserted one. -/
theorem lookup_upsert_self (st : KStore) (k : KKey) (v : KPayload) :
    lookup_kline (upsert_kline st k v) k = some v := by
  induction st with
  | nil => simp [upsert_kline, lookup_kline]
  | cons e rest ih =>
    by_cases he : e.1 = k
    · simp [upsert_kline, lookup_kline, he]
    · simp [upsert_kline, lookup_kline, he, ih]

/-- An upsert does not change any other key. -/
theorem lookup_upsert_ne (st : KStore) (k k' : KKey) (v : KPayload)
    (h : k' ≠ k) :
    lookup_kline (upsert_kline st k v) k' = lookup_kline st k' := by
  induction st with
  | nil => simp [upsert_kline, lookup_kline, Ne.symm h]
  | cons e rest ih =>
    by_cases he : e.1 = k
    · have hk' : ¬(k = k') := fun hh => h hh.symm
      have he' : ¬(e.1 = k') := by
        rw [he]
        exact hk'
      simp [upsert_kline, lookup_kline, he, hk', he']
    · simp [upsert_kline, lookup_kline, he, ih]

/-- An upsert that writes the payload already stored is a no-op. -/
theorem upsert_eq_self (st : KStore) (k : KKey) (v : KPayload)
    (h : lookup_kline st k = some v) :
    upsert_kline st k v = st := by
  induction st with
  | nil => simp [lookup_kline] at h
  | cons e rest ih =>
    obtain ⟨e1, e2⟩ := e
    by_cases he : e1 = k
    · rw [lookup_kline, if_pos he] at h
      obtain rfl : e2 = v := by
        injection h
      rw [upsert_kline, if_pos he, he]
    · rw [lookup_kline, if_neg he] at h
      rw [upsert_kline, if_neg he, ih h]

/-- Saving rows touching only other keys leaves a key's payload unchanged. -/
theorem lookup_save_of_not_mem (sym tf : String)
    (klines : List (Nat × KPayload)) (st : KStore) (key : KKey)
    (h : ∀ k ∈ klines, (⟨k.1, sym, tf⟩ : KKey) ≠ key) :
    lookup_kline (save_klines sym tf klines st) key = lookup_kline st key := by
  induction klines generalizing st with
  | nil => rfl
  | cons a t ih =>
    rw [save_klines_cons,
      ih _ (fun k hk => h k (List.mem_cons_of_mem a hk)),
      lookup_upsert_ne st _ key a.2 (Ne.symm (h a (List.mem_cons_self a t)))]

/-- After `save_klines` of a key-coherent stream, every row of the stream is
stored with its payload. -/
theorem lookup_save_mem (sym tf : String) (klines : List (Nat × KPayload))
    (st : KStore)
    (hcoh : ∀ k ∈ klines, ∀ k' ∈ klines, k.1 = k'.1 → k.2 = k'.2) :
    ∀ k ∈ klines,
      lookup_kline (save_klines sym tf klines st) ⟨k.1, sym, tf⟩ = some k.2 := by
  induction klines generalizing st with
  | nil =>
    intro k hk
    cases hk
  | cons a t ih =>
    have hcoh' : ∀ k ∈ t, ∀ k' ∈ t, k.1 = k'.1 → k.2 = k'.2 :=
      fun x hx y hy => hcoh x (List.mem_cons_of_mem a hx) y
        (List.mem_cons_of_mem a hy)
    intro k hk
    rw [save_klines_cons]
    rcases List.mem_cons.1 hk with rfl | hkt
    · by_cases hmem : ∃ k' ∈ t, k'.1 = k.1
      · obtain ⟨k', hk't, hkk'⟩ := hmem
        have hv : k'.2 = k.2 :=
          hcoh k' (List.mem_cons_of_mem _ hk't) k hk hkk'
        have hlk := ih (upsert_kline st ⟨k.1, sym, tf⟩ k.2) hcoh' k' hk't
        rw [hkk', hv] at hlk
        exact hlk
      · push_neg at hmem
        rw [lookup_save_of_not_mem sym tf t _ _
          (fun k' hk' hkey => hmem k' hk' (congrArg KKey.time hkey))]
        exact lookup_upsert_self st _ _
    · exact ih _ hcoh' k hkt

/-- Replaying rows whose payloads are already stored changes nothing. -/
theorem save_klines_noop (sym tf : String) (klines : List (Nat × KPayload))
    (st : KStore)
    (h : ∀ k ∈ klines, lookup_kline st ⟨k.1, sym, tf⟩ = some k.2) :
    save_klines sym tf klines st = st := by
  induction klines with
  | nil => rfl
  | cons a t ih =>
    rw [save_klines_cons, upsert_eq_self st _ _ (h a (List.mem_cons_self a t))]
    exact ih (fun k hk => h k (List.mem_cons_of_mem a hk))

/-- **C9.** For a stream whose rows carry one payload per `(time, symbol,
timeframe)` key, `save_klines` stores exactly the payloads of the stream,
and replaying any prefix of the stream (in particular the whole stream)
after saving it is a no-op on the stored state. -/
theorem save_klines_idempotent (sym tf : String)
    (klines : List (Nat × KPayload)) (st : KStore)
    (hcoh : ∀ k ∈ klines, ∀ k' ∈ klines, k.1 = k'.1 → k.2 = k'.2) :
    (∀ k ∈ klines,
      lookup_kline (save_klines sym tf klines st) ⟨k.1, sym, tf⟩ = some k.2) ∧
    ∀ n, save_klines sym tf (klines.take n) (save_klines sym tf klines st) =
      save_klines sym tf klines st := by
  refine ⟨lookup_save_mem sym tf klines st hcoh, ?_⟩
  intro n
  apply save_klines_noop
  intro k hk
  exact lookup_save_mem sym tf klines st hcoh k (List.take_subset n klines hk)

/-- Witness for `save_klines_idempotent`: a two-candle stream for
`BTC/USDT` saved into the empty store. -/
theorem save_klines_idempotent_witness :
    (∀ k ∈ [(0, kpayA), (5, kpayB)],
      lookup_kline
        (save_klines "BTC/USDT" "5m" [(0, kpayA), (5, kpayB)] [])
        ⟨k.1, "BTC/USDT", "5m"⟩ = some k.2) ∧
    ∀ n, save_klines "BTC/USDT" "5m" ([(0, kpayA), (5, kpayB)].take n)
        (save_klines "BTC/USDT" "5m" [(0, kpayA), (5, kpayB)] []) =
      save_klines "BTC/USDT" "5m" [(0, kpayA), (5, kpayB)] [] :=
  save_klines_idempotent "BTC/USDT" "5m" [(0, kpayA), (5, kpayB)] []
    (by decide)

end AltScreener
